import Mathlib

/-!
Verification of the discovery-and-proxy core of `ssh_agent_switcher.py`.

The embedding models a filesystem snapshot as an `FS` record of pure
functions (directory listings, `os.path.isdir`, `os.stat`, and whether a
`connect` to a given path would succeed), and translates the Python
functions `find_agent_socket_subdir`, `find_agent_socket`,
`proxy_connection` and `handle_connection` into pure Lean functions.
Besides their result, the filesystem-scanning functions also return the
list of observable filesystem actions they perform (listings, stats,
connection attempts), in the order the Python code performs them, so that
claims about what is *not* scanned or attempted can be stated.
-/

namespace Switcher

/-- File-status metadata as returned by `os.stat`: the mode word and the
owning user id. -/
structure StatInfo where
  st_mode : Nat
  st_uid : Nat
deriving DecidableEq

/-- A filesystem snapshot together with the process environment the scan
reads: `uid` is `os.getuid()`; `listdir p` is `os.listdir(p)` (`none` when
the listing raises `OSError`); `isdir p` is `os.path.isdir(p)` (which
returns `False` rather than raising); `stat p` is `os.stat(p)` (`none`
when it raises `OSError`); `connectOk p` tells whether connecting a Unix
socket to `p` succeeds. -/
structure FS where
  uid : Nat
  listdir : String → Option (List String)
  isdir : String → Bool
  stat : String → Option StatInfo
  connectOk : String → Bool

/-- Observable filesystem actions performed by the scan. -/
inductive Ev where
  | listDir (p : String)
  | isDirChk (p : String)
  | statChk (p : String)
  | connect (p : String)
deriving DecidableEq

/-- Model of `os.path.join` for a directory and an entry name. -/
def pjoin (a b : String) : String := a ++ "/" ++ b

/-- The file-type mask of the Unix mode word (`stat.S_IFMT`). -/
def S_IFMT : Nat := 0o170000

/-- The socket file-type bits (`stat.S_IFSOCK`). -/
def S_IFSOCK : Nat := 0o140000

/-- Predicate `stat.S_ISSOCK`: whether a mode word denotes a socket. -/
def S_ISSOCK (m : Nat) : Bool := m &&& S_IFMT == S_IFSOCK

/-- Python's `s.startswith(pre)` on code points. -/
def startswith (s pre : String) : Bool := pre.data.isPrefixOf s.data

/-- The entry loop of `find_agent_socket_subdir`: walk the entries of a
session directory, skipping entries not named `agent.*`, entries whose
`stat` fails, and entries that are not sockets; attempt to connect to the
remaining ones and return the first path whose connection succeeds. -/
def scanCandidates (fs : FS) (dirPath : String) : List String → Option String × List Ev
  | [] => (none, [])
  | c :: rest =>
    if startswith c "agent." = false then
      scanCandidates fs dirPath rest
    else
      match fs.stat (pjoin dirPath c) with
      | none =>
        ((scanCandidates fs dirPath rest).1,
          Ev.statChk (pjoin dirPath c) :: (scanCandidates fs dirPath rest).2)
      | some info =>
        if S_ISSOCK info.st_mode = false then
          ((scanCandidates fs dirPath rest).1,
            Ev.statChk (pjoin dirPath c) :: (scanCandidates fs dirPath rest).2)
        else if fs.connectOk (pjoin dirPath c) then
          (some (pjoin dirPath c),
            [Ev.statChk (pjoin dirPath c), Ev.connect (pjoin dirPath c)])
        else
          ((scanCandidates fs dirPath rest).1,
            Ev.statChk (pjoin dirPath c) :: Ev.connect (pjoin dirPath c) ::
              (scanCandidates fs dirPath rest).2)

/-- Model of `find_agent_socket_subdir(dir_path)`: list the session directory
(`OSError` yields no agent) and scan its entries. -/
def find_agent_socket_subdir (fs : FS) (dirPath : String) : Option String × List Ev :=
  match fs.listdir dirPath with
  | none => (none, [Ev.listDir dirPath])
  | some entries =>
    ((scanCandidates fs dirPath entries).1,
      Ev.listDir dirPath :: (scanCandidates fs dirPath entries).2)

/-- The entry loop of `find_agent_socket`: walk the (sorted) entries of the
agents root, skipping non-directories, entries not named `ssh-*`, entries
whose `stat` fails and entries owned by another user; scan the remaining
session directories in turn and return the first agent connection
obtained. -/
def scanSessions (fs : FS) (root : String) : List String → Option String × List Ev
  | [] => (none, [])
  | e :: rest =>
    if fs.isdir (pjoin root e) = false then
      ((scanSessions fs root rest).1,
        Ev.isDirChk (pjoin root e) :: (scanSessions fs root rest).2)
    else if startswith e "ssh-" = false then
      ((scanSessions fs root rest).1,
        Ev.isDirChk (pjoin root e) :: (scanSessions fs root rest).2)
    else
      match fs.stat (pjoin root e) with
      | none =>
        ((scanSessions fs root rest).1,
          Ev.isDirChk (pjoin root e) :: Ev.statChk (pjoin root e) ::
            (scanSessions fs root rest).2)
      | some info =>
        if (info.st_uid == fs.uid) = false then
          ((scanSessions fs root rest).1,
            Ev.isDirChk (pjoin root e) :: Ev.statChk (pjoin root e) ::
              (scanSessions fs root rest).2)
        else
          match (find_agent_socket_subdir fs (pjoin root e)).1 with
          | some a =>
            (some a,
              Ev.isDirChk (pjoin root e) :: Ev.statChk (pjoin root e) ::
                (find_agent_socket_subdir fs (pjoin root e)).2)
          | none =>
            ((scanSessions fs root rest).1,
              Ev.isDirChk (pjoin root e) :: Ev.statChk (pjoin root e) ::
                ((find_agent_socket_subdir fs (pjoin root e)).2 ++
                  (scanSessions fs root rest).2))

/-- Lexicographic comparison of code-point sequences, the order Python
uses to compare strings. -/
def charLe : List Char → List Char → Bool
  | [], _ => true
  | _ :: _, [] => false
  | a :: as, b :: bs =>
    if a.toNat < b.toNat then true
    else if b.toNat < a.toNat then false
    else charLe as bs

/-- Python's `<=` on strings: lexicographic by code points. -/
def strLe (a b : String) : Bool := charLe a.data b.data

/-- Python's `entries.sort()` on strings: a stable ascending sort by code
points. -/
def sortStrings (l : List String) : List String :=
  List.insertionSort (fun a b => strLe a b = true) l

/-- Model of `find_agent_socket(dir_path)`: list the agents root (`OSError` yields
not-found), sort the entries, and scan the session directories. -/
def find_agent_socket (fs : FS) (root : String) : Option String × List Ev :=
  match fs.listdir root with
  | none => (none, [Ev.listDir root])
  | some entries =>
    ((scanSessions fs root (sortStrings entries)).1,
      Ev.listDir root :: (scanSessions fs root (sortStrings entries)).2)

/-- Spec-side notion: an entry of the agents root is an eligible session
directory when it is a directory, its name starts with the session prefix
and its owning user id equals the current user id. -/
def eligibleSession (fs : FS) (root e : String) : Bool :=
  fs.isdir (pjoin root e) && startswith e "ssh-" &&
    (match fs.stat (pjoin root e) with
     | some info => info.st_uid == fs.uid
     | none => false)

/-- Spec-side notion: an entry of a session directory is a connectable
candidate when its name starts with the agent-file prefix, its file-status
metadata marks it a socket, and connecting to it succeeds. -/
def connectableCandidate (fs : FS) (dirPath c : String) : Bool :=
  startswith c "agent." &&
    (match fs.stat (pjoin dirPath c) with
     | some info => S_ISSOCK info.st_mode
     | none => false) &&
    fs.connectOk (pjoin dirPath c)

/-- Spec-side notion: a session directory yields a connection exactly when
it can be listed and some entry is a connectable candidate. -/
def sessionYields (fs : FS) (dirPath : String) : Bool :=
  match fs.listdir dirPath with
  | none => false
  | some cs => cs.any (fun c => connectableCandidate fs dirPath c)

/-- Spec-side notion: the path of the first connectable candidate of a
session directory, in listing order. -/
def firstConnectable (fs : FS) (dirPath : String) : Option String :=
  match fs.listdir dirPath with
  | none => none
  | some cs =>
    (cs.find? (fun c => connectableCandidate fs dirPath c)).map (fun c => pjoin dirPath c)

/-- The result of one `recv` call on a channel: returned bytes (the empty
chunk signals EOF), a raised `socket.error` with `errno == ECONNRESET`, or
any other raised `socket.error`. -/
inductive RecvRes where
  | data (b : List Nat)
  | reset
  | fail
deriving DecidableEq

/-- The result of `proxy_connection`: `normal` models returning `None`,
the other constructors model the four `Exception` returns, named after the
operation whose failure produced them. -/
inductive Outcome where
  | normal
  | errWriteAgent
  | errReadAgent
  | errWriteClient
  | errReadClient
deriving DecidableEq

/-- The fixed relay buffer size (`buf_size = 4096`). -/
def buf_size : Nat := 4096

/-- Model of `proxy_connection(client, agent)`. Each channel direction is scripted:
`crecv`/`arecv` list the successive results of `client.recv`/`agent.recv`
(an exhausted script behaves like a closed peer, i.e. EOF), and
`csend`/`asend` list whether the successive `client.sendall`/`agent.sendall`
calls succeed (an exhausted script means success). Returns the outcome of
the loop together with the chunk sequences successfully delivered to the
agent and to the client, in order. -/
def proxy_connection : List RecvRes → List Bool → List RecvRes → List Bool →
    Outcome × List (List Nat) × List (List Nat)
  | [], _, _, _ => (Outcome.normal, [], [])
  | RecvRes.reset :: _, _, _, _ => (Outcome.normal, [], [])
  | RecvRes.fail :: _, _, _, _ => (Outcome.errReadClient, [], [])
  | RecvRes.data d :: crs, csend, arecv, asend =>
    if d.isEmpty then (Outcome.normal, [], [])
    else if (asend.headD true) = false then (Outcome.errWriteAgent, [], [])
    else
      match arecv.headD (RecvRes.data []) with
      | RecvRes.reset => (Outcome.errReadAgent, [d], [])
      | RecvRes.fail => (Outcome.errReadAgent, [d], [])
      | RecvRes.data r =>
        if r.isEmpty then (Outcome.normal, [d], [])
        else if (csend.headD true) = false then (Outcome.errWriteClient, [d], [])
        else
          ((proxy_connection crs csend.tail arecv.tail asend.tail).1,
            d :: (proxy_connection crs csend.tail arecv.tail asend.tail).2.1,
            r :: (proxy_connection crs csend.tail arecv.tail asend.tail).2.2)

/-- The two `close` calls the per-connection handler can make. -/
inductive CloseEv where
  | closeAgent
  | closeClient
deriving DecidableEq

/-- Model of `handle_connection(client, agents_dir)`: run discovery; on not-found
close the client and return; otherwise run the relay and, in `finally`
blocks, close the agent and then the client. Returns the relay outcome
(when a relay ran) and the close calls in the order they are made. -/
def handle_connection (fs : FS) (root : String) (crecv : List RecvRes) (csend : List Bool)
    (arecv : List RecvRes) (asend : List Bool) : Option Outcome × List CloseEv :=
  match (find_agent_socket fs root).1 with
  | none => (none, [CloseEv.closeClient])
  | some _ =>
    ((proxy_connection crecv csend arecv asend).1, [CloseEv.closeAgent, CloseEv.closeClient])

/-- Whether a string contains no path separator, as entry names returned
by a real directory listing do. -/
def slashFree (s : String) : Bool := s.data.all (fun ch => ch != '/')

/-- A concrete snapshot: agents root `/tmp` holds one eligible session
directory `ssh-a` with one connectable agent socket `agent.0`. -/
def fsOne : FS where
  uid := 1000
  listdir := fun p =>
    if p = "/tmp" then some ["ssh-a"]
    else if p = "/tmp/ssh-a" then some ["agent.0"]
    else none
  isdir := fun p => p == "/tmp/ssh-a"
  stat := fun p =>
    if p = "/tmp/ssh-a" then some ⟨0o040700, 1000⟩
    else if p = "/tmp/ssh-a/agent.0" then some ⟨0o140600, 1000⟩
    else none
  connectOk := fun p => p == "/tmp/ssh-a/agent.0"

/-- A concrete snapshot exercising the filters: `/tmp` holds a non-owned
session directory `ssh-b` with a live socket, a plain file `ssh-c`, a
directory `zzz` without the prefix, and an owned session directory `ssh-d`
holding a non-socket `agent.1`, a stale socket `agent.2` that refuses
connections, and a live socket `agent.3`. -/
def fsMix : FS where
  uid := 1000
  listdir := fun p =>
    if p = "/tmp" then some ["zzz", "ssh-d", "ssh-c", "ssh-b"]
    else if p = "/tmp/ssh-b" then some ["agent.9"]
    else if p = "/tmp/ssh-d" then some ["agent.1", "agent.2", "agent.3", "README"]
    else if p = "/tmp/zzz" then some []
    else none
  isdir := fun p => p == "/tmp/ssh-b" || p == "/tmp/ssh-d" || p == "/tmp/zzz"
  stat := fun p =>
    if p = "/tmp/ssh-b" then some ⟨0o040700, 42⟩
    else if p = "/tmp/ssh-d" then some ⟨0o040700, 1000⟩
    else if p = "/tmp/zzz" then some ⟨0o040700, 1000⟩
    else if p = "/tmp/ssh-b/agent.9" then some ⟨0o140600, 42⟩
    else if p = "/tmp/ssh-d/agent.1" then some ⟨0o100600, 1000⟩
    else if p = "/tmp/ssh-d/agent.2" then some ⟨0o140600, 1000⟩
    else if p = "/tmp/ssh-d/agent.3" then some ⟨0o140600, 1000⟩
    else none
  connectOk := fun p => p == "/tmp/ssh-b/agent.9" || p == "/tmp/ssh-d/agent.3"

/-- A concrete snapshot for the socket-ownership question: the eligible
session directory `ssh-a` holds two connectable sockets, `agent.0` owned
by the current user and `agent.1` owned by user 42. -/
def fsOwn : FS where
  uid := 1000
  listdir := fun p =>
    if p = "/tmp" then some ["ssh-a"]
    else if p = "/tmp/ssh-a" then some ["agent.0", "agent.1"]
    else none
  isdir := fun p => p == "/tmp/ssh-a"
  stat := fun p =>
    if p = "/tmp/ssh-a" then some ⟨0o040700, 1000⟩
    else if p = "/tmp/ssh-a/agent.0" then some ⟨0o140600, 1000⟩
    else if p = "/tmp/ssh-a/agent.1" then some ⟨0o140600, 42⟩
    else none
  connectOk := fun p => p == "/tmp/ssh-a/agent.0" || p == "/tmp/ssh-a/agent.1"

/-- A concrete snapshot whose only candidate, `ssh-a/agent.1`, is a
connectable socket owned by user 42, not by the current user 1000. -/
def fsOther : FS where
  uid := 1000
  listdir := fun p =>
    if p = "/tmp" then some ["ssh-a"]
    else if p = "/tmp/ssh-a" then some ["agent.1"]
    else none
  isdir := fun p => p == "/tmp/ssh-a"
  stat := fun p =>
    if p = "/tmp/ssh-a" then some ⟨0o040700, 1000⟩
    else if p = "/tmp/ssh-a/agent.1" then some ⟨0o140600, 42⟩
    else none
  connectOk := fun p => p == "/tmp/ssh-a/agent.1"

/-! ### Order lemmas for the code-point comparison -/

theorem charLe_refl (l : List Char) : charLe l l = true := by
  induction l with
  | nil => rfl
  | cons a as ih => simp [charLe, ih]

theorem charLe_total (l₁ l₂ : List Char) : charLe l₁ l₂ = true ∨ charLe l₂ l₁ = true := by
  induction l₁ generalizing l₂ with
  | nil => exact Or.inl rfl
  | cons a as ih =>
    cases l₂ with
    | nil => exact Or.inr rfl
    | cons b bs =>
      rcases Nat.lt_trichotomy a.toNat b.toNat with h | h | h
      · exact Or.inl (by simp [charLe, h])
      · rcases ih bs with h2 | h2
        · exact Or.inl (by simp [charLe, h, h2])
        · exact Or.inr (by simp [charLe, h, h2])
      · exact Or.inr (by simp [charLe, h])

theorem charLe_trans {l₁ l₂ l₃ : List Char} (h12 : charLe l₁ l₂ = true)
    (h23 : charLe l₂ l₃ = true) : charLe l₁ l₃ = true := by
  induction l₁ generalizing l₂ l₃ with
  | nil => rfl
  | cons a as ih =>
    cases l₂ with
    | nil => simp [charLe] at h12
    | cons b bs =>
      cases l₃ with
      | nil => simp [charLe] at h23
      | cons c cs =>
        rcases Nat.lt_trichotomy a.toNat b.toNat with hab | hab | hab <;>
          rcases Nat.lt_trichotomy b.toNat c.toNat with hbc | hbc | hbc <;>
          simp [charLe, hab, hbc] at h12 h23 ⊢ <;>
          first
          | omega
          | exact ih h12 h23

theorem charLe_antisymm {l₁ l₂ : List Char} (h12 : charLe l₁ l₂ = true)
    (h21 : charLe l₂ l₁ = true) : l₁ = l₂ := by
  induction l₁ generalizing l₂ with
  | nil =>
    cases l₂ with
    | nil => rfl
    | cons b bs => simp [charLe] at h21
  | cons a as ih =>
    cases l₂ with
    | nil => simp [charLe] at h12
    | cons b bs =>
      rcases Nat.lt_trichotomy a.toNat b.toNat with hab | hab | hab
      · simp [charLe, hab] at h21
        omega
      · have hc : a = b := Char.eq_of_val_eq (UInt32.ext hab)
        subst hc
        simp [charLe] at h12 h21
        rw [ih h12 h21]
      · simp [charLe, hab] at h12
        omega

theorem strLe_refl (s : String) : strLe s s = true := charLe_refl s.data

theorem strLe_total (s t : String) : strLe s t = true ∨ strLe t s = true :=
  charLe_total s.data t.data

theorem strLe_trans {s t u : String} (h1 : strLe s t = true) (h2 : strLe t u = true) :
    strLe s u = true := charLe_trans h1 h2

theorem strLe_antisymm {s t : String} (h1 : strLe s t = true) (h2 : strLe t s = true) :
    s = t := by
  have h := charLe_antisymm h1 h2
  cases s
  cases t
  exact congrArg String.mk h

instance : IsTotal String (fun a b => strLe a b = true) := ⟨strLe_total⟩

instance : IsTrans String (fun a b => strLe a b = true) := ⟨fun _ _ _ => strLe_trans⟩

theorem sortStrings_sorted (l : List String) :
    (sortStrings l).Sorted (fun a b => strLe a b = true) :=
  List.sorted_insertionSort (fun a b => strLe a b = true) l

theorem mem_sortStrings {l : List String} {x : String} : x ∈ sortStrings l ↔ x ∈ l :=
  List.mem_insertionSort (fun a b => strLe a b = true)

/-! ### Path-joining lemmas -/

theorem pjoin_data (a b : String) : (pjoin a b).data = a.data ++ '/' :: b.data := by
  simp [pjoin, String.data_append]

theorem pjoin_right_inj {r a b : String} (h : pjoin r a = pjoin r b) : a = b := by
  have hd := congrArg String.data h
  rw [pjoin_data, pjoin_data] at hd
  have := List.append_cancel_left hd
  cases a
  cases b
  exact congrArg String.mk (by simpa using this)

theorem pjoin_ne_left (r e : String) : pjoin r e ≠ r := by
  intro h
  have hd := congrArg (fun s => s.data.length) h
  simp [pjoin_data] at hd

theorem slashFree_sep_inj {e f : List Char} {c d : List Char}
    (he : ∀ ch ∈ e, ch ≠ '/') (hf : ∀ ch ∈ f, ch ≠ '/')
    (h : e ++ '/' :: c = f ++ '/' :: d) : e = f ∧ c = d := by
  induction e generalizing f with
  | nil =>
    cases f with
    | nil => simpa using h
    | cons b fs =>
      simp at h
      exact absurd h.1.symm (hf b (by simp))
  | cons a es ih =>
    cases f with
    | nil =>
      simp at h
      exact absurd h.1 (he a (by simp))
    | cons b fs =>
      simp at h
      obtain ⟨hab, hrest⟩ := h
      obtain ⟨h1, h2⟩ := ih (fun ch hch => he ch (by simp [hch])) (fun ch hch => hf ch (by simp [hch])) hrest
      exact ⟨by simp [hab, h1], h2⟩

theorem slashFree_pjoin_inj {r e f c d : String} (he : slashFree e = true) (hf : slashFree f = true)
    (h : pjoin (pjoin r e) c = pjoin (pjoin r f) d) : e = f ∧ c = d := by
  have hd := congrArg String.data h
  rw [pjoin_data, pjoin_data, pjoin_data, pjoin_data] at hd
  simp only [List.append_assoc, List.cons_append] at hd
  have hd2 := List.append_cancel_left hd
  have hd3 : e.data ++ '/' :: c.data = f.data ++ '/' :: d.data := by simpa using hd2
  have he' : ∀ ch ∈ e.data, ch ≠ '/' := by
    intro ch hch
    have := (List.all_eq_true.mp he) ch hch
    simpa using this
  have hf' : ∀ ch ∈ f.data, ch ≠ '/' := by
    intro ch hch
    have := (List.all_eq_true.mp hf) ch hch
    simpa using this
  obtain ⟨h1, h2⟩ := slashFree_sep_inj he' hf' hd3
  constructor
  · cases e; cases f; exact congrArg String.mk (by simpa using h1)
  · cases c; cases d; exact congrArg String.mk (by simpa using h2)

/-! ### Characterization of the subdirectory scan -/

theorem scanCandidates_fst (fs : FS) (d : String) (cs : List String) :
    (scanCandidates fs d cs).1 =
      (cs.find? (fun c => connectableCandidate fs d c)).map (fun c => pjoin d c) := by
  induction cs with
  | nil => rfl
  | cons c rest ih =>
    cases hpre : startswith c "agent." with
    | false =>
      have hcc : connectableCandidate fs d c = false := by
        simp [connectableCandidate, hpre]
      simp [scanCandidates, hpre, hcc, List.find?_cons, ih]
    | true =>
      cases hstat : fs.stat (pjoin d c) with
      | none =>
        have hcc : connectableCandidate fs d c = false := by
          simp [connectableCandidate, hpre, hstat]
        simp [scanCandidates, hpre, hstat, hcc, List.find?_cons, ih]
      | some info =>
        cases hsock : S_ISSOCK info.st_mode with
        | false =>
          have hcc : connectableCandidate fs d c = false := by
            simp [connectableCandidate, hpre, hstat, hsock]
          simp [scanCandidates, hpre, hstat, hsock, hcc, List.find?_cons, ih]
        | true =>
          cases hconn : fs.connectOk (pjoin d c) with
          | false =>
            have hcc : connectableCandidate fs d c = false := by
              simp [connectableCandidate, hpre, hstat, hsock, hconn]
            simp [scanCandidates, hpre, hstat, hsock, hconn, hcc, List.find?_cons, ih]
          | true =>
            have hcc : connectableCandidate fs d c = true := by
              simp [connectableCandidate, hpre, hstat, hsock, hconn]
            simp [scanCandidates, hpre, hstat, hsock, hconn, hcc, List.find?_cons]

theorem find_agent_socket_subdir_fst (fs : FS) (d : String) :
    (find_agent_socket_subdir fs d).1 = firstConnectable fs d := by
  cases h : fs.listdir d with
  | none => simp [find_agent_socket_subdir, firstConnectable, h]
  | some cs => simp [find_agent_socket_subdir, firstConnectable, h, scanCandidates_fst]

theorem find_agent_socket_subdir_isSome (fs : FS) (d : String) :
    (find_agent_socket_subdir fs d).1.isSome = sessionYields fs d := by
  rw [find_agent_socket_subdir_fst]
  cases h : fs.listdir d with
  | none => simp [firstConnectable, sessionYields, h]
  | some cs =>
    simp only [firstConnectable, sessionYields, h, Option.isSome_map]
    cases hf : cs.find? (fun c => connectableCandidate fs d c) with
    | none =>
      have h2 : cs.any (fun c => connectableCandidate fs d c) = false :=
        List.any_eq_false.mpr (by simpa using List.find?_eq_none.mp hf)
      simp [h2]
    | some c =>
      have h2 : cs.any (fun c => connectableCandidate fs d c) = true :=
        List.any_eq_true.mpr
          ⟨c, List.mem_of_find?_eq_some hf, by simpa using List.find?_some hf⟩
      simp [h2]

/-! ### Characterization of the session-directory scan -/

theorem scanSessions_fst (fs : FS) (root : String) (es : List String) :
    (scanSessions fs root es).1 =
      (match es.find? (fun x => eligibleSession fs root x && sessionYields fs (pjoin root x)) with
       | none => none
       | some e => firstConnectable fs (pjoin root e)) := by
  induction es with
  | nil => rfl
  | cons e rest ih =>
    cases hdir : fs.isdir (pjoin root e) with
    | false =>
      have hpred : (eligibleSession fs root e && sessionYields fs (pjoin root e)) = false := by
        simp [eligibleSession, hdir]
      rw [List.find?_cons_of_neg _ (by simp [hpred])]
      simp [scanSessions, hdir, ih]
    | true =>
      cases hpre : startswith e "ssh-" with
      | false =>
        have hpred : (eligibleSession fs root e && sessionYields fs (pjoin root e)) = false := by
          simp [eligibleSession, hdir, hpre]
        rw [List.find?_cons_of_neg _ (by simp [hpred])]
        simp [scanSessions, hdir, hpre, ih]
      | true =>
        cases hstat : fs.stat (pjoin root e) with
        | none =>
          have hpred : (eligibleSession fs root e && sessionYields fs (pjoin root e)) = false := by
            simp [eligibleSession, hdir, hpre, hstat]
          rw [List.find?_cons_of_neg _ (by simp [hpred])]
          simp [scanSessions, hdir, hpre, hstat, ih]
        | some info =>
          cases huid : info.st_uid == fs.uid with
          | false =>
            have hpred : (eligibleSession fs root e && sessionYields fs (pjoin root e)) = false := by
              simp [eligibleSession, hdir, hpre, hstat, huid]
            rw [List.find?_cons_of_neg _ (by simp [hpred])]
            simp [scanSessions, hdir, hpre, hstat, huid, ih]
          | true =>
            have helig : eligibleSession fs root e = true := by
              simp [eligibleSession, hdir, hpre, hstat, huid]
            cases hsub : (find_agent_socket_subdir fs (pjoin root e)).1 with
            | none =>
              have hyields : sessionYields fs (pjoin root e) = false := by
                rw [← find_agent_socket_subdir_isSome, hsub]
                rfl
              rw [List.find?_cons_of_neg _ (by simp [helig, hyields])]
              simp [scanSessions, hdir, hpre, hstat, huid, hsub, ih]
            | some a =>
              have hyields : sessionYields fs (pjoin root e) = true := by
                rw [← find_agent_socket_subdir_isSome, hsub]
                rfl
              rw [List.find?_cons_of_pos _ (by simp [helig, hyields])]
              have : firstConnectable fs (pjoin root e) = some a := by
                rw [← find_agent_socket_subdir_fst, hsub]
              simp [scanSessions, hdir, hpre, hstat, huid, hsub, this]

theorem find?_sorted_min {p : String → Bool} {l : List String} {e : String}
    (hs : l.Sorted (fun a b => strLe a b = true)) (hf : l.find? p = some e) :
    ∀ x ∈ l, p x = true → strLe e x = true := by
  induction l with
  | nil => simp at hf
  | cons a rest ih =>
    rw [List.sorted_cons] at hs
    obtain ⟨ha, hrest⟩ := hs
    cases hpa : p a with
    | true =>
      rw [List.find?_cons_of_pos _ hpa] at hf
      obtain rfl : a = e := by injection hf
      intro x hx hpx
      rcases List.mem_cons.mp hx with rfl | hx'
      · exact strLe_refl _
      · exact ha x hx'
    | false =>
      rw [List.find?_cons_of_neg _ (by simp [hpa])] at hf
      intro x hx hpx
      rcases List.mem_cons.mp hx with rfl | hx'
      · rw [hpx] at hpa
        cases hpa
      · exact ih hrest hf x hx' hpx

theorem find?_sorted_eq {p : String → Bool} {l : List String} {e : String}
    (hs : l.Sorted (fun a b => strLe a b = true)) (he : e ∈ l) (hpe : p e = true)
    (hmin : ∀ x ∈ l, p x = true → strLe e x = true) : l.find? p = some e := by
  induction l with
  | nil => simp at he
  | cons a rest ih =>
    rw [List.sorted_cons] at hs
    obtain ⟨ha, hrest⟩ := hs
    cases hpa : p a with
    | true =>
      rw [List.find?_cons_of_pos _ hpa]
      have h1 : strLe e a = true := hmin a (List.mem_cons_self a rest) hpa
      have h2 : strLe a e = true := by
        rcases List.mem_cons.mp he with rfl | he'
        · exact strLe_refl _
        · exact ha e he'
      rw [strLe_antisymm h2 h1]
    | false =>
      have he' : e ∈ rest := by
        rcases List.mem_cons.mp he with rfl | he'
        · rw [hpe] at hpa
          cases hpa
        · exact he'
      rw [List.find?_cons_of_neg _ (by simp [hpa])]
      exact ih hrest he' fun x hx hpx => hmin x (List.mem_cons_of_mem a hx) hpx

/-! ### Trace lemmas for the subdirectory scan -/

theorem scanCandidates_no_listDir (fs : FS) (d : String) (cs : List String) (p : String) :
    Ev.listDir p ∉ (scanCandidates fs d cs).2 := by
  induction cs with
  | nil => simp [scanCandidates]
  | cons c rest ih =>
    cases hpre : startswith c "agent." with
    | false => simpa [scanCandidates, hpre] using ih
    | true =>
      cases hstat : fs.stat (pjoin d c) with
      | none => simp [scanCandidates, hpre, hstat, ih]
      | some info =>
        cases hsock : S_ISSOCK info.st_mode with
        | false => simp [scanCandidates, hpre, hstat, hsock, ih]
        | true =>
          cases hconn : fs.connectOk (pjoin d c) with
          | false => simp [scanCandidates, hpre, hstat, hsock, hconn, ih]
          | true => simp [scanCandidates, hpre, hstat, hsock, hconn]

theorem scanCandidates_connect_char (fs : FS) (d : String) (cs : List String) (p : String)
    (h : Ev.connect p ∈ (scanCandidates fs d cs).2) :
    ∃ c ∈ cs, p = pjoin d c ∧ startswith c "agent." = true ∧
      ∃ i, fs.stat (pjoin d c) = some i ∧ S_ISSOCK i.st_mode = true := by
  induction cs with
  | nil => simp [scanCandidates] at h
  | cons c rest ih =>
    cases hpre : startswith c "agent." with
    | false =>
      rw [show scanCandidates fs d (c :: rest) = scanCandidates fs d rest by
        simp [scanCandidates, hpre]] at h
      obtain ⟨x, hx, hrest⟩ := ih h
      exact ⟨x, List.mem_cons_of_mem c hx, hrest⟩
    | true =>
      cases hstat : fs.stat (pjoin d c) with
      | none =>
        simp [scanCandidates, hpre, hstat] at h
        obtain ⟨x, hx, hrest⟩ := ih h
        exact ⟨x, List.mem_cons_of_mem c hx, hrest⟩
      | some info =>
        cases hsock : S_ISSOCK info.st_mode with
        | false =>
          simp [scanCandidates, hpre, hstat, hsock] at h
          obtain ⟨x, hx, hrest⟩ := ih h
          exact ⟨x, List.mem_cons_of_mem c hx, hrest⟩
        | true =>
          cases hconn : fs.connectOk (pjoin d c) with
          | false =>
            simp [scanCandidates, hpre, hstat, hsock, hconn] at h
            rcases h with rfl | h
            · exact ⟨c, List.mem_cons_self c rest, rfl, hpre, info, hstat, hsock⟩
            · obtain ⟨x, hx, hrest⟩ := ih h
              exact ⟨x, List.mem_cons_of_mem c hx, hrest⟩
          | true =>
            simp [scanCandidates, hpre, hstat, hsock, hconn] at h
            subst h
            exact ⟨c, List.mem_cons_self c rest, rfl, hpre, info, hstat, hsock⟩

theorem scanCandidates_result_connect (fs : FS) (d : String) (cs : List String) (p : String)
    (h : (scanCandidates fs d cs).1 = some p) :
    Ev.connect p ∈ (scanCandidates fs d cs).2 := by
  induction cs with
  | nil => simp [scanCandidates] at h
  | cons c rest ih =>
    cases hpre : startswith c "agent." with
    | false =>
      rw [show scanCandidates fs d (c :: rest) = scanCandidates fs d rest by
        simp [scanCandidates, hpre]] at h ⊢
      exact ih h
    | true =>
      cases hstat : fs.stat (pjoin d c) with
      | none =>
        simp only [scanCandidates, hpre, hstat] at h ⊢
        exact List.mem_cons_of_mem _ (ih h)
      | some info =>
        cases hsock : S_ISSOCK info.st_mode with
        | false =>
          simp only [scanCandidates, hpre, hstat, hsock, if_true, if_false] at h ⊢
          exact List.mem_cons_of_mem _ (ih h)
        | true =>
          cases hconn : fs.connectOk (pjoin d c) with
          | false =>
            simp only [scanCandidates, hpre, hstat, hsock, hconn] at h ⊢
            exact List.mem_cons_of_mem _ (List.mem_cons_of_mem _ (ih h))
          | true =>
            simp only [scanCandidates, hpre, hstat, hsock, hconn] at h ⊢
            cases h
            simp

theorem find_agent_socket_subdir_listDir_char (fs : FS) (d : String) (p : String)
    (h : Ev.listDir p ∈ (find_agent_socket_subdir fs d).2) : p = d := by
  cases hl : fs.listdir d with
  | none =>
    simp [find_agent_socket_subdir, hl] at h
    exact h
  | some cs =>
    simp only [find_agent_socket_subdir, hl, List.mem_cons] at h
    rcases h with h | h
    · cases h
      rfl
    · exact absurd h (scanCandidates_no_listDir fs d cs p)

theorem find_agent_socket_subdir_connect_char (fs : FS) (d : String) (p : String)
    (h : Ev.connect p ∈ (find_agent_socket_subdir fs d).2) :
    ∃ cs, fs.listdir d = some cs ∧ ∃ c ∈ cs, p = pjoin d c ∧ startswith c "agent." = true ∧
      ∃ i, fs.stat (pjoin d c) = some i ∧ S_ISSOCK i.st_mode = true := by
  cases hl : fs.listdir d with
  | none => simp [find_agent_socket_subdir, hl] at h
  | some cs =>
    simp only [find_agent_socket_subdir, hl, List.mem_cons] at h
    rcases h with h | h
    · cases h
    · exact ⟨cs, rfl, scanCandidates_connect_char fs d cs p h⟩

theorem find_agent_socket_subdir_result_connect (fs : FS) (d : String) (p : String)
    (h : (find_agent_socket_subdir fs d).1 = some p) :
    Ev.connect p ∈ (find_agent_socket_subdir fs d).2 := by
  cases hl : fs.listdir d with
  | none => simp [find_agent_socket_subdir, hl] at h
  | some cs =>
    simp only [find_agent_socket_subdir, hl] at h ⊢
    exact List.mem_cons_of_mem _ (scanCandidates_result_connect fs d cs p h)

/-! ### Trace lemmas for the session scan -/

theorem scanSessions_listDir_char (fs : FS) (root : String) (es : List String) (p : String)
    (h : Ev.listDir p ∈ (scanSessions fs root es).2) :
    ∃ e ∈ es, p = pjoin root e ∧ eligibleSession fs root e = true := by
  induction es with
  | nil => simp [scanSessions] at h
  | cons e rest ih =>
    cases hdir : fs.isdir (pjoin root e) with
    | false =>
      simp [scanSessions, hdir] at h
      obtain ⟨x, hx, hrest⟩ := ih h
      exact ⟨x, List.mem_cons_of_mem e hx, hrest⟩
    | true =>
      cases hpre : startswith e "ssh-" with
      | false =>
        simp [scanSessions, hdir, hpre] at h
        obtain ⟨x, hx, hrest⟩ := ih h
        exact ⟨x, List.mem_cons_of_mem e hx, hrest⟩
      | true =>
        cases hstat : fs.stat (pjoin root e) with
        | none =>
          simp [scanSessions, hdir, hpre, hstat] at h
          obtain ⟨x, hx, hrest⟩ := ih h
          exact ⟨x, List.mem_cons_of_mem e hx, hrest⟩
        | some info =>
          cases huid : info.st_uid == fs.uid with
          | false =>
            simp [scanSessions, hdir, hpre, hstat, huid] at h
            obtain ⟨x, hx, hrest⟩ := ih h
            exact ⟨x, List.mem_cons_of_mem e hx, hrest⟩
          | true =>
            have helig : eligibleSession fs root e = true := by
              simp [eligibleSession, hdir, hpre, hstat, huid]
            cases hsub : (find_agent_socket_subdir fs (pjoin root e)).1 with
            | some a =>
              simp [scanSessions, hdir, hpre, hstat, huid, hsub] at h
              exact ⟨e, List.mem_cons_self e rest,
                find_agent_socket_subdir_listDir_char fs (pjoin root e) p h, helig⟩
            | none =>
              simp [scanSessions, hdir, hpre, hstat, huid, hsub] at h
              rcases h with h | h
              · exact ⟨e, List.mem_cons_self e rest,
                  find_agent_socket_subdir_listDir_char fs (pjoin root e) p h, helig⟩
              · obtain ⟨x, hx, hrest⟩ := ih h
                exact ⟨x, List.mem_cons_of_mem e hx, hrest⟩

theorem scanSessions_connect_lift (fs : FS) (root : String) (es : List String) (p : String)
    (h : Ev.connect p ∈ (scanSessions fs root es).2) :
    ∃ e ∈ es, eligibleSession fs root e = true ∧
      Ev.connect p ∈ (find_agent_socket_subdir fs (pjoin root e)).2 := by
  induction es with
  | nil => simp [scanSessions] at h
  | cons e rest ih =>
    cases hdir : fs.isdir (pjoin root e) with
    | false =>
      simp [scanSessions, hdir] at h
      obtain ⟨x, hx, hrest⟩ := ih h
      exact ⟨x, List.mem_cons_of_mem e hx, hrest⟩
    | true =>
      cases hpre : startswith e "ssh-" with
      | false =>
        simp [scanSessions, hdir, hpre] at h
        obtain ⟨x, hx, hrest⟩ := ih h
        exact ⟨x, List.mem_cons_of_mem e hx, hrest⟩
      | true =>
        cases hstat : fs.stat (pjoin root e) with
        | none =>
          simp [scanSessions, hdir, hpre, hstat] at h
          obtain ⟨x, hx, hrest⟩ := ih h
          exact ⟨x, List.mem_cons_of_mem e hx, hrest⟩
        | some info =>
          cases huid : info.st_uid == fs.uid with
          | false =>
            simp [scanSessions, hdir, hpre, hstat, huid] at h
            obtain ⟨x, hx, hrest⟩ := ih h
            exact ⟨x, List.mem_cons_of_mem e hx, hrest⟩
          | true =>
            have helig : eligibleSession fs root e = true := by
              simp [eligibleSession, hdir, hpre, hstat, huid]
            cases hsub : (find_agent_socket_subdir fs (pjoin root e)).1 with
            | some a =>
              simp [scanSessions, hdir, hpre, hstat, huid, hsub] at h
              exact ⟨e, List.mem_cons_self e rest, helig, h⟩
            | none =>
              simp [scanSessions, hdir, hpre, hstat, huid, hsub] at h
              rcases h with h | h
              · exact ⟨e, List.mem_cons_self e rest, helig, h⟩
              · obtain ⟨x, hx, hrest⟩ := ih h
                exact ⟨x, List.mem_cons_of_mem e hx, hrest⟩

theorem scanSessions_result_connect (fs : FS) (root : String) (es : List String) (p : String)
    (h : (scanSessions fs root es).1 = some p) :
    Ev.connect p ∈ (scanSessions fs root es).2 := by
  induction es with
  | nil => simp [scanSessions] at h
  | cons e rest ih =>
    cases hdir : fs.isdir (pjoin root e) with
    | false =>
      have hres : (scanSessions fs root (e :: rest)).1 = (scanSessions fs root rest).1 := by
        simp [scanSessions, hdir]
      have htr : (scanSessions fs root (e :: rest)).2 =
          Ev.isDirChk (pjoin root e) :: (scanSessions fs root rest).2 := by
        simp [scanSessions, hdir]
      rw [hres] at h
      rw [htr]
      exact List.mem_cons_of_mem _ (ih h)
    | true =>
      cases hpre : startswith e "ssh-" with
      | false =>
        have hres : (scanSessions fs root (e :: rest)).1 = (scanSessions fs root rest).1 := by
          simp [scanSessions, hdir, hpre]
        have htr : (scanSessions fs root (e :: rest)).2 =
            Ev.isDirChk (pjoin root e) :: (scanSessions fs root rest).2 := by
          simp [scanSessions, hdir, hpre]
        rw [hres] at h
        rw [htr]
        exact List.mem_cons_of_mem _ (ih h)
      | true =>
        cases hstat : fs.stat (pjoin root e) with
        | none =>
          have hres : (scanSessions fs root (e :: rest)).1 = (scanSessions fs root rest).1 := by
            simp [scanSessions, hdir, hpre, hstat]
          have htr : (scanSessions fs root (e :: rest)).2 =
              Ev.isDirChk (pjoin root e) :: Ev.statChk (pjoin root e) ::
                (scanSessions fs root rest).2 := by
            simp [scanSessions, hdir, hpre, hstat]
          rw [hres] at h
          rw [htr]
          exact List.mem_cons_of_mem _ (List.mem_cons_of_mem _ (ih h))
        | some info =>
          cases huid : info.st_uid == fs.uid with
          | false =>
            have hres : (scanSessions fs root (e :: rest)).1 = (scanSessions fs root rest).1 := by
              simp [scanSessions, hdir, hpre, hstat, huid]
            have htr : (scanSessions fs root (e :: rest)).2 =
                Ev.isDirChk (pjoin root e) :: Ev.statChk (pjoin root e) ::
                  (scanSessions fs root rest).2 := by
              simp [scanSessions, hdir, hpre, hstat, huid]
            rw [hres] at h
            rw [htr]
            exact List.mem_cons_of_mem _ (List.mem_cons_of_mem _ (ih h))
          | true =>
            cases hsub : (find_agent_socket_subdir fs (pjoin root e)).1 with
            | some a =>
              have hres : (scanSessions fs root (e :: rest)).1 = some a := by
                simp [scanSessions, hdir, hpre, hstat, huid, hsub]
              have htr : (scanSessions fs root (e :: rest)).2 =
                  Ev.isDirChk (pjoin root e) :: Ev.statChk (pjoin root e) ::
                    (find_agent_socket_subdir fs (pjoin root e)).2 := by
                simp [scanSessions, hdir, hpre, hstat, huid, hsub]
              rw [hres] at h
              injection h with h
              subst h
              rw [htr]
              exact List.mem_cons_of_mem _ (List.mem_cons_of_mem _
                (find_agent_socket_subdir_result_connect fs (pjoin root e) _ hsub))
            | none =>
              have hres : (scanSessions fs root (e :: rest)).1 = (scanSessions fs root rest).1 := by
                simp [scanSessions, hdir, hpre, hstat, huid, hsub]
              have htr : (scanSessions fs root (e :: rest)).2 =
                  Ev.isDirChk (pjoin root e) :: Ev.statChk (pjoin root e) ::
                    ((find_agent_socket_subdir fs (pjoin root e)).2 ++
                      (scanSessions fs root rest).2) := by
                simp [scanSessions, hdir, hpre, hstat, huid, hsub]
              rw [hres] at h
              rw [htr]
              exact List.mem_cons_of_mem _ (List.mem_cons_of_mem _
                (List.mem_append_right _ (ih h)))

theorem scanSessions_success_bound (fs : FS) (root : String) (es : List String) (a : String)
    (hs : es.Sorted (fun x y => strLe x y = true))
    (h : (scanSessions fs root es).1 = some a) :
    ∃ e ∈ es, eligibleSession fs root e = true ∧
      (find_agent_socket_subdir fs (pjoin root e)).1 = some a ∧
      (∀ x ∈ es, eligibleSession fs root x = true →
        sessionYields fs (pjoin root x) = true → strLe e x = true) ∧
      ∀ p, Ev.listDir p ∈ (scanSessions fs root es).2 →
        ∃ x ∈ es, p = pjoin root x ∧ strLe x e = true := by
  induction es with
  | nil => simp [scanSessions] at h
  | cons e rest ih =>
    rw [List.sorted_cons] at hs
    obtain ⟨hle, hrest⟩ := hs
    cases hdir : fs.isdir (pjoin root e) with
    | false =>
      have helig0 : eligibleSession fs root e = false := by
        simp [eligibleSession, hdir]
      have hres : (scanSessions fs root (e :: rest)).1 = (scanSessions fs root rest).1 := by
        simp [scanSessions, hdir]
      have htr : (scanSessions fs root (e :: rest)).2 =
          Ev.isDirChk (pjoin root e) :: (scanSessions fs root rest).2 := by
        simp [scanSessions, hdir]
      rw [hres] at h
      obtain ⟨x, hx, helig, hsub, hmin, hbound⟩ := ih hrest h
      refine ⟨x, List.mem_cons_of_mem e hx, helig, hsub, ?_, ?_⟩
      · intro y hy hely hyy
        rcases List.mem_cons.mp hy with rfl | hy'
        · rw [helig0] at hely
          cases hely
        · exact hmin y hy' hely hyy
      · intro p hp
        rw [htr] at hp
        rcases List.mem_cons.mp hp with hp | hp
        · exact Ev.noConfusion hp
        · obtain ⟨y, hy, hpy, hyx⟩ := hbound p hp
          exact ⟨y, List.mem_cons_of_mem e hy, hpy, hyx⟩
    | true =>
      cases hpre : startswith e "ssh-" with
      | false =>
        have helig0 : eligibleSession fs root e = false := by
          simp [eligibleSession, hdir, hpre]
        have hres : (scanSessions fs root (e :: rest)).1 = (scanSessions fs root rest).1 := by
          simp [scanSessions, hdir, hpre]
        have htr : (scanSessions fs root (e :: rest)).2 =
            Ev.isDirChk (pjoin root e) :: (scanSessions fs root rest).2 := by
          simp [scanSessions, hdir, hpre]
        rw [hres] at h
        obtain ⟨x, hx, helig, hsub, hmin, hbound⟩ := ih hrest h
        refine ⟨x, List.mem_cons_of_mem e hx, helig, hsub, ?_, ?_⟩
        · intro y hy hely hyy
          rcases List.mem_cons.mp hy with rfl | hy'
          · rw [helig0] at hely
            cases hely
          · exact hmin y hy' hely hyy
        · intro p hp
          rw [htr] at hp
          rcases List.mem_cons.mp hp with hp | hp
          · exact Ev.noConfusion hp
          · obtain ⟨y, hy, hpy, hyx⟩ := hbound p hp
            exact ⟨y, List.mem_cons_of_mem e hy, hpy, hyx⟩
      | true =>
        cases hstat : fs.stat (pjoin root e) with
        | none =>
          have helig0 : eligibleSession fs root e = false := by
            simp [eligibleSession, hdir, hpre, hstat]
          have hres : (scanSessions fs root (e :: rest)).1 = (scanSessions fs root rest).1 := by
            simp [scanSessions, hdir, hpre, hstat]
          have htr : (scanSessions fs root (e :: rest)).2 =
              Ev.isDirChk (pjoin root e) :: Ev.statChk (pjoin root e) ::
                (scanSessions fs root rest).2 := by
            simp [scanSessions, hdir, hpre, hstat]
          rw [hres] at h
          obtain ⟨x, hx, helig, hsub, hmin, hbound⟩ := ih hrest h
          refine ⟨x, List.mem_cons_of_mem e hx, helig, hsub, ?_, ?_⟩
          · intro y hy hely hyy
            rcases List.mem_cons.mp hy with rfl | hy'
            · rw [helig0] at hely
              cases hely
            · exact hmin y hy' hely hyy
          · intro p hp
            rw [htr] at hp
            rcases List.mem_cons.mp hp with hp | hp
            · exact Ev.noConfusion hp
            rcases List.mem_cons.mp hp with hp | hp
            · exact Ev.noConfusion hp
            obtain ⟨y, hy, hpy, hyx⟩ := hbound p hp
            exact ⟨y, List.mem_cons_of_mem e hy, hpy, hyx⟩
        | some info =>
          cases huid : info.st_uid == fs.uid with
          | false =>
            have helig0 : eligibleSession fs root e = false := by
              simp [eligibleSession, hdir, hpre, hstat, huid]
            have hres : (scanSessions fs root (e :: rest)).1 = (scanSessions fs root rest).1 := by
              simp [scanSessions, hdir, hpre, hstat, huid]
            have htr : (scanSessions fs root (e :: rest)).2 =
                Ev.isDirChk (pjoin root e) :: Ev.statChk (pjoin root e) ::
                  (scanSessions fs root rest).2 := by
              simp [scanSessions, hdir, hpre, hstat, huid]
            rw [hres] at h
            obtain ⟨x, hx, helig, hsub, hmin, hbound⟩ := ih hrest h
            refine ⟨x, List.mem_cons_of_mem e hx, helig, hsub, ?_, ?_⟩
            · intro y hy hely hyy
              rcases List.mem_cons.mp hy with rfl | hy'
              · rw [helig0] at hely
                cases hely
              · exact hmin y hy' hely hyy
            · intro p hp
              rw [htr] at hp
              rcases List.mem_cons.mp hp with hp | hp
              · exact Ev.noConfusion hp
              rcases List.mem_cons.mp hp with hp | hp
              · exact Ev.noConfusion hp
              obtain ⟨y, hy, hpy, hyx⟩ := hbound p hp
              exact ⟨y, List.mem_cons_of_mem e hy, hpy, hyx⟩
          | true =>
            have helig : eligibleSession fs root e = true := by
              simp [eligibleSession, hdir, hpre, hstat, huid]
            cases hsub : (find_agent_socket_subdir fs (pjoin root e)).1 with
            | some a0 =>
              have hres : (scanSessions fs root (e :: rest)).1 = some a0 := by
                simp [scanSessions, hdir, hpre, hstat, huid, hsub]
              have htr : (scanSessions fs root (e :: rest)).2 =
                  Ev.isDirChk (pjoin root e) :: Ev.statChk (pjoin root e) ::
                    (find_agent_socket_subdir fs (pjoin root e)).2 := by
                simp [scanSessions, hdir, hpre, hstat, huid, hsub]
              rw [hres] at h
              injection h with h
              subst h
              refine ⟨e, List.mem_cons_self e rest, helig, hsub, ?_, ?_⟩
              · intro y hy _ _
                rcases List.mem_cons.mp hy with rfl | hy'
                · exact strLe_refl y
                · exact hle y hy'
              · intro p hp
                rw [htr] at hp
                rcases List.mem_cons.mp hp with hp | hp
                · exact Ev.noConfusion hp
                rcases List.mem_cons.mp hp with hp | hp
                · exact Ev.noConfusion hp
                exact ⟨e, List.mem_cons_self e rest,
                  find_agent_socket_subdir_listDir_char fs (pjoin root e) p hp, strLe_refl e⟩
            | none =>
              have hyields0 : sessionYields fs (pjoin root e) = false := by
                rw [← find_agent_socket_subdir_isSome, hsub]
                rfl
              have hres : (scanSessions fs root (e :: rest)).1 = (scanSessions fs root rest).1 := by
                simp [scanSessions, hdir, hpre, hstat, huid, hsub]
              have htr : (scanSessions fs root (e :: rest)).2 =
                  Ev.isDirChk (pjoin root e) :: Ev.statChk (pjoin root e) ::
                    ((find_agent_socket_subdir fs (pjoin root e)).2 ++
                      (scanSessions fs root rest).2) := by
                simp [scanSessions, hdir, hpre, hstat, huid, hsub]
              rw [hres] at h
              obtain ⟨x, hx, helig2, hsub2, hmin, hbound⟩ := ih hrest h
              refine ⟨x, List.mem_cons_of_mem e hx, helig2, hsub2, ?_, ?_⟩
              · intro y hy hely hyy
                rcases List.mem_cons.mp hy with rfl | hy'
                · rw [hyields0] at hyy
                  cases hyy
                · exact hmin y hy' hely hyy
              · intro p hp
                rw [htr] at hp
                rcases List.mem_cons.mp hp with hp | hp
                · exact Ev.noConfusion hp
                rcases List.mem_cons.mp hp with hp | hp
                · exact Ev.noConfusion hp
                rcases List.mem_append.mp hp with hp | hp
                · have hpe := find_agent_socket_subdir_listDir_char fs (pjoin root e) p hp
                  exact ⟨e, List.mem_cons_self e rest, hpe, hle x hx⟩
                · obtain ⟨y, hy, hpy, hyx⟩ := hbound p hp
                  exact ⟨y, List.mem_cons_of_mem e hy, hpy, hyx⟩

theorem firstConnectable_isSome (fs : FS) (d : String) :
    (firstConnectable fs d).isSome = sessionYields fs d := by
  rw [← find_agent_socket_subdir_fst]
  exact find_agent_socket_subdir_isSome fs d

theorem find_agent_isSome_iff (fs : FS) (root : String) :
    (find_agent_socket fs root).1.isSome = true ↔
      ∃ entries, fs.listdir root = some entries ∧
        ∃ e ∈ entries, eligibleSession fs root e = true ∧
          sessionYields fs (pjoin root e) = true := by
  cases hl : fs.listdir root with
  | none =>
    constructor
    · intro hs
      simp [find_agent_socket, hl] at hs
    · rintro ⟨entries, he, -⟩
      exact Option.noConfusion he
  | some entries =>
    have hfst : (find_agent_socket fs root).1 =
        (scanSessions fs root (sortStrings entries)).1 := by
      simp [find_agent_socket, hl]
    rw [hfst, scanSessions_fst]
    cases hfind : (sortStrings entries).find?
        (fun x => eligibleSession fs root x && sessionYields fs (pjoin root x)) with
    | none =>
      constructor
      · intro hs
        simp at hs
      · rintro ⟨entries2, he2, e, hemem, helig, hyield⟩
        injection he2 with he2
        subst he2
        have hnone := List.find?_eq_none.mp hfind e (mem_sortStrings.mpr hemem)
        simp [helig, hyield] at hnone
    | some e =>
      have hpe := List.find?_some hfind
      have hyield : sessionYields fs (pjoin root e) = true := by
        simp at hpe
        exact hpe.2
      have helig : eligibleSession fs root e = true := by
        simp at hpe
        exact hpe.1
      constructor
      · intro _
        exact ⟨entries, rfl, e,
          mem_sortStrings.mp (List.mem_of_find?_eq_some hfind), helig, hyield⟩
      · intro _
        rw [firstConnectable_isSome]
        exact hyield

theorem find_agent_success_char (fs : FS) (root : String) :
    ∀ a, (find_agent_socket fs root).1 = some a →
      ∃ entries e, fs.listdir root = some entries ∧ e ∈ entries ∧
        eligibleSession fs root e = true ∧ sessionYields fs (pjoin root e) = true ∧
        (∀ x ∈ entries, eligibleSession fs root x = true →
          sessionYields fs (pjoin root x) = true → strLe e x = true) ∧
        firstConnectable fs (pjoin root e) = some a ∧
        ∀ p, Ev.listDir p ∈ (find_agent_socket fs root).2 →
          p = root ∨ ∃ x ∈ entries, p = pjoin root x ∧ strLe x e = true := by
  intro a ha
  cases hl : fs.listdir root with
  | none => simp [find_agent_socket, hl] at ha
  | some entries =>
    have hfst : (find_agent_socket fs root).1 =
        (scanSessions fs root (sortStrings entries)).1 := by
      simp [find_agent_socket, hl]
    rw [hfst] at ha
    obtain ⟨e, he, helig, hsub, hmin, hbound⟩ :=
      scanSessions_success_bound fs root (sortStrings entries) a
        (sortStrings_sorted entries) ha
    refine ⟨entries, e, rfl, mem_sortStrings.mp he, helig, ?_, ?_, ?_, ?_⟩
    · rw [← find_agent_socket_subdir_isSome, hsub]
      rfl
    · intro x hx hex hyx
      exact hmin x (mem_sortStrings.mpr hx) hex hyx
    · rw [← find_agent_socket_subdir_fst]
      exact hsub
    · intro p hp
      have htr : (find_agent_socket fs root).2 =
          Ev.listDir root :: (scanSessions fs root (sortStrings entries)).2 := by
        simp [find_agent_socket, hl]
      rw [htr] at hp
      rcases List.mem_cons.mp hp with hp | hp
      · injection hp with hp
        exact Or.inl hp
      · obtain ⟨x, hx, hpx, hxe⟩ := hbound p hp
        exact Or.inr ⟨x, mem_sortStrings.mp hx, hpx, hxe⟩

/-- Claim C1: `find_agent` returns an open channel iff some eligible
session directory (a directory entry named `ssh-*` owned by the current
user) contains a connectable `agent.*` socket; on success the returned
channel is connected to the first connectable candidate of the
lexicographically earliest eligible session directory that yields one, and
no session directory past the successful one is scanned. -/
theorem find_agent_correct (fs : FS) (root : String) :
    ((find_agent_socket fs root).1.isSome = true ↔
      ∃ entries, fs.listdir root = some entries ∧
        ∃ e ∈ entries, eligibleSession fs root e = true ∧
          sessionYields fs (pjoin root e) = true)
    ∧
    ∀ a, (find_agent_socket fs root).1 = some a →
      ∃ entries e, fs.listdir root = some entries ∧ e ∈ entries ∧
        eligibleSession fs root e = true ∧ sessionYields fs (pjoin root e) = true ∧
        (∀ x ∈ entries, eligibleSession fs root x = true →
          sessionYields fs (pjoin root x) = true → strLe e x = true) ∧
        firstConnectable fs (pjoin root e) = some a ∧
        ∀ p, Ev.listDir p ∈ (find_agent_socket fs root).2 →
          p = root ∨ ∃ x ∈ entries, p = pjoin root x ∧ strLe x e = true :=
  ⟨find_agent_isSome_iff fs root, find_agent_success_char fs root⟩

theorem find_agent_correct_witness :
    (find_agent_socket fsMix "/tmp").1.isSome = true :=
  (find_agent_correct fsMix "/tmp").1.mpr
    ⟨["zzz", "ssh-d", "ssh-c", "ssh-b"], by decide, "ssh-d", by decide, by decide, by decide⟩

theorem find_agent_socket_result_connect (fs : FS) (root p : String)
    (h : (find_agent_socket fs root).1 = some p) :
    Ev.connect p ∈ (find_agent_socket fs root).2 := by
  cases hl : fs.listdir root with
  | none => simp [find_agent_socket, hl] at h
  | some entries =>
    have hfst : (find_agent_socket fs root).1 =
        (scanSessions fs root (sortStrings entries)).1 := by
      simp [find_agent_socket, hl]
    have htr : (find_agent_socket fs root).2 =
        Ev.listDir root :: (scanSessions fs root (sortStrings entries)).2 := by
      simp [find_agent_socket, hl]
    rw [hfst] at h
    rw [htr]
    exact List.mem_cons_of_mem _ (scanSessions_result_connect fs root (sortStrings entries) p h)

/-- Claim C3: a session directory owned by another user id is never
selected: its contents are never listed, no connection is ever attempted
to a path inside it, and the returned channel never points inside it. -/
theorem ownership_filter (fs : FS) (root e : String) (entries : List String) (info : StatInfo)
    (hl : fs.listdir root = some entries)
    (hsf : ∀ x ∈ entries, slashFree x = true)
    (he : e ∈ entries)
    (hs : fs.stat (pjoin root e) = some info)
    (hu : info.st_uid ≠ fs.uid) :
    Ev.listDir (pjoin root e) ∉ (find_agent_socket fs root).2 ∧
    (∀ c, Ev.connect (pjoin (pjoin root e) c) ∉ (find_agent_socket fs root).2) ∧
    (∀ c, (find_agent_socket fs root).1 ≠ some (pjoin (pjoin root e) c)) := by
  have helig : eligibleSession fs root e = false := by
    simp [eligibleSession, hs, hu]
  have htr : (find_agent_socket fs root).2 =
      Ev.listDir root :: (scanSessions fs root (sortStrings entries)).2 := by
    simp [find_agent_socket, hl]
  have hconn : ∀ c, Ev.connect (pjoin (pjoin root e) c) ∉ (find_agent_socket fs root).2 := by
    intro c hmem
    rw [htr] at hmem
    rcases List.mem_cons.mp hmem with hmem | hmem
    · exact Ev.noConfusion hmem
    obtain ⟨x, hx, heligx, hcx⟩ :=
      scanSessions_connect_lift fs root (sortStrings entries) _ hmem
    obtain ⟨cs, hlx, c2, hc2, hpform, -⟩ :=
      find_agent_socket_subdir_connect_char fs (pjoin root x) _ hcx
    obtain ⟨hex, -⟩ :=
      slashFree_pjoin_inj (hsf e he) (hsf x (mem_sortStrings.mp hx)) hpform
    rw [← hex] at heligx
    rw [helig] at heligx
    cases heligx
  refine ⟨?_, hconn, ?_⟩
  · intro hmem
    rw [htr] at hmem
    rcases List.mem_cons.mp hmem with hmem | hmem
    · injection hmem with hmem
      exact pjoin_ne_left root e hmem
    obtain ⟨x, hx, hpx, heligx⟩ :=
      scanSessions_listDir_char fs root (sortStrings entries) _ hmem
    rw [pjoin_right_inj hpx] at helig
    rw [helig] at heligx
    cases heligx
  · intro c hres
    exact hconn c (find_agent_socket_result_connect fs root _ hres)

theorem ownership_filter_witness :
    Ev.listDir (pjoin "/tmp" "ssh-b") ∉ (find_agent_socket fsMix "/tmp").2 ∧
    (∀ c, Ev.connect (pjoin (pjoin "/tmp" "ssh-b") c) ∉ (find_agent_socket fsMix "/tmp").2) ∧
    (∀ c, (find_agent_socket fsMix "/tmp").1 ≠ some (pjoin (pjoin "/tmp" "ssh-b") c)) :=
  ownership_filter fsMix "/tmp" "ssh-b" ["zzz", "ssh-d", "ssh-c", "ssh-b"] ⟨0o040700, 42⟩
    (by decide) (by decide) (by decide) (by decide) (by decide)

/-- Claim C4: the subdirectory scan only ever attempts a connection to a
path whose file-status metadata (`os.stat`) marks it a socket; an entry
whose name matches `agent.*` but is not a socket is never connected to. -/
theorem socket_type_filter (fs : FS) (dirPath p : String)
    (h : Ev.connect p ∈ (find_agent_socket_subdir fs dirPath).2) :
    ∃ i, fs.stat p = some i ∧ S_ISSOCK i.st_mode = true := by
  obtain ⟨cs, hl, c, hc, hp, hpre, i, hstat, hsock⟩ :=
    find_agent_socket_subdir_connect_char fs dirPath p h
  subst hp
  exact ⟨i, hstat, hsock⟩

theorem socket_type_filter_witness :
    ∃ i, fsMix.stat "/tmp/ssh-d/agent.2" = some i ∧ S_ISSOCK i.st_mode = true :=
  socket_type_filter fsMix "/tmp/ssh-d" "/tmp/ssh-d/agent.2" (by decide)

/-- Claim C5: no filesystem or connection failure escapes the scan. A
failed listing of the agents root yields not-found; a failed listing of a
session directory yields no agent from that directory; every per-entry
failure (not a directory, wrong prefix, failed stat, wrong owner, empty
subdirectory, not a socket, refused connection) merely skips that entry
and the scan continues with the remaining entries. The functions are
total, so no error is ever raised to the caller: the only non-channel
outcome is `none`. -/
theorem find_agent_error_resilience (fs : FS) (root dirPath e c : String)
    (rest : List String) :
    (fs.listdir root = none → find_agent_socket fs root = (none, [Ev.listDir root])) ∧
    (fs.listdir dirPath = none →
      find_agent_socket_subdir fs dirPath = (none, [Ev.listDir dirPath])) ∧
    (fs.isdir (pjoin root e) = false →
      (scanSessions fs root (e :: rest)).1 = (scanSessions fs root rest).1) ∧
    (startswith e "ssh-" = false →
      (scanSessions fs root (e :: rest)).1 = (scanSessions fs root rest).1) ∧
    (fs.stat (pjoin root e) = none →
      (scanSessions fs root (e :: rest)).1 = (scanSessions fs root rest).1) ∧
    (∀ info, fs.stat (pjoin root e) = some info → info.st_uid ≠ fs.uid →
      (scanSessions fs root (e :: rest)).1 = (scanSessions fs root rest).1) ∧
    ((find_agent_socket_subdir fs (pjoin root e)).1 = none →
      (scanSessions fs root (e :: rest)).1 = (scanSessions fs root rest).1) ∧
    (startswith c "agent." = false →
      (scanCandidates fs dirPath (c :: rest)).1 = (scanCandidates fs dirPath rest).1) ∧
    (fs.stat (pjoin dirPath c) = none →
      (scanCandidates fs dirPath (c :: rest)).1 = (scanCandidates fs dirPath rest).1) ∧
    (∀ info, fs.stat (pjoin dirPath c) = some info → S_ISSOCK info.st_mode = false →
      (scanCandidates fs dirPath (c :: rest)).1 = (scanCandidates fs dirPath rest).1) ∧
    (∀ info, fs.stat (pjoin dirPath c) = some info → S_ISSOCK info.st_mode = true →
      fs.connectOk (pjoin dirPath c) = false →
      (scanCandidates fs dirPath (c :: rest)).1 = (scanCandidates fs dirPath rest).1) := by
  refine ⟨?_, ?_, ?_, ?_, ?_, ?_, ?_, ?_, ?_, ?_, ?_⟩
  · intro h
    simp [find_agent_socket, h]
  · intro h
    simp [find_agent_socket_subdir, h]
  · intro h
    simp [scanSessions, h]
  · intro h
    cases hdir : fs.isdir (pjoin root e) with
    | false => simp [scanSessions, hdir]
    | true => simp [scanSessions, hdir, h]
  · intro h
    cases hdir : fs.isdir (pjoin root e) with
    | false => simp [scanSessions, hdir]
    | true =>
      cases hpre : startswith e "ssh-" with
      | false => simp [scanSessions, hdir, hpre]
      | true => simp [scanSessions, hdir, hpre, h]
  · intro info hstat hu
    cases hdir : fs.isdir (pjoin root e) with
    | false => simp [scanSessions, hdir]
    | true =>
      cases hpre : startswith e "ssh-" with
      | false => simp [scanSessions, hdir, hpre]
      | true => simp [scanSessions, hdir, hpre, hstat, hu]
  · intro h
    cases hdir : fs.isdir (pjoin root e) with
    | false => simp [scanSessions, hdir]
    | true =>
      cases hpre : startswith e "ssh-" with
      | false => simp [scanSessions, hdir, hpre]
      | true =>
        cases hstat : fs.stat (pjoin root e) with
        | none => simp [scanSessions, hdir, hpre, hstat]
        | some info =>
          cases huid : info.st_uid == fs.uid with
          | false => simp [scanSessions, hdir, hpre, hstat, huid]
          | true => simp [scanSessions, hdir, hpre, hstat, huid, h]
  · intro h
    simp [scanCandidates, h]
  · intro h
    cases hpre : startswith c "agent." with
    | false => simp [scanCandidates, hpre]
    | true => simp [scanCandidates, hpre, h]
  · intro info hstat hsock
    cases hpre : startswith c "agent." with
    | false => simp [scanCandidates, hpre]
    | true => simp [scanCandidates, hpre, hstat, hsock]
  · intro info hstat hsock hconn
    cases hpre : startswith c "agent." with
    | false => simp [scanCandidates, hpre]
    | true => simp [scanCandidates, hpre, hstat, hsock, hconn]

theorem find_agent_error_resilience_witness :
    find_agent_socket fsOne "/nope" = (none, [Ev.listDir "/nope"]) ∧
    (scanSessions fsMix "/tmp" ["ssh-c", "ssh-d"]).1 = (scanSessions fsMix "/tmp" ["ssh-d"]).1 ∧
    (scanCandidates fsMix "/tmp/ssh-d" ["agent.1", "agent.3"]).1 =
      (scanCandidates fsMix "/tmp/ssh-d" ["agent.3"]).1 ∧
    (scanCandidates fsMix "/tmp/ssh-d" ["agent.2", "agent.3"]).1 =
      (scanCandidates fsMix "/tmp/ssh-d" ["agent.3"]).1 :=
  ⟨(find_agent_error_resilience fsOne "/nope" "" "" "" []).1 (by decide),
   (find_agent_error_resilience fsMix "/tmp" "" "ssh-c" "" ["ssh-d"]).2.2.1 (by decide),
   (find_agent_error_resilience fsMix "/tmp" "/tmp/ssh-d" "" "agent.1"
     ["agent.3"]).2.2.2.2.2.2.2.2.2.1 ⟨0o100600, 1000⟩ (by decide) (by decide),
   (find_agent_error_resilience fsMix "/tmp" "/tmp/ssh-d" "" "agent.2"
     ["agent.3"]).2.2.2.2.2.2.2.2.2.2 ⟨0o140600, 1000⟩ (by decide) (by decide) (by decide)⟩

/-- Claim C10, counterexample to the claim as stated: in `fsOwn` the
eligible session directory `ssh-a` contains the connectable socket
`agent.1` owned by user 42 (not the current user 1000), yet `find_agent`
returns a channel connected to `agent.0`, not to that entry: the returned
channel is not "connected to that entry". -/
theorem no_socket_owner_check_counterexample :
    eligibleSession fsOwn "/tmp" "ssh-a" = true ∧
    connectableCandidate fsOwn (pjoin "/tmp" "ssh-a") "agent.1" = true ∧
    (fsOwn.stat (pjoin (pjoin "/tmp" "ssh-a") "agent.1")).map StatInfo.st_uid = some 42 ∧
    fsOwn.uid = 1000 ∧
    (find_agent_socket fsOwn "/tmp").1 = some (pjoin (pjoin "/tmp" "ssh-a") "agent.0") ∧
    (find_agent_socket fsOwn "/tmp").1 ≠ some (pjoin (pjoin "/tmp" "ssh-a") "agent.1") := by
  decide

/-- Claim C10, amended: the subdirectory scan checks no ownership on the
socket file itself, so a snapshot whose eligible session directory holds a
connectable `agent.*` socket owned by a different user still makes
`find_agent` return a channel; and when that entry is the first connectable
candidate of the earliest eligible session directory that yields one, the
returned channel is connected to that very entry. -/
theorem no_socket_owner_check (fs : FS) (root e c : String) (entries cs : List String)
    (hl : fs.listdir root = some entries) (he : e ∈ entries)
    (helig : eligibleSession fs root e = true)
    (hcs : fs.listdir (pjoin root e) = some cs) (hc : c ∈ cs)
    (hcand : connectableCandidate fs (pjoin root e) c = true)
    (i : StatInfo) (hstat : fs.stat (pjoin (pjoin root e) c) = some i)
    (hu : i.st_uid ≠ fs.uid) :
    (find_agent_socket fs root).1.isSome = true ∧
    ((∀ x ∈ entries, eligibleSession fs root x = true →
        sessionYields fs (pjoin root x) = true → strLe e x = true) →
      cs.find? (fun y => connectableCandidate fs (pjoin root e) y) = some c →
      (find_agent_socket fs root).1 = some (pjoin (pjoin root e) c)) := by
  have hyield : sessionYields fs (pjoin root e) = true := by
    rw [sessionYields, hcs]
    exact List.any_eq_true.mpr ⟨c, hc, hcand⟩
  constructor
  · exact (find_agent_isSome_iff fs root).mpr ⟨entries, hl, e, he, helig, hyield⟩
  · intro hmin hfind
    have hfst : (find_agent_socket fs root).1 =
        (scanSessions fs root (sortStrings entries)).1 := by
      simp [find_agent_socket, hl]
    rw [hfst, scanSessions_fst]
    have hfe : (sortStrings entries).find?
        (fun x => eligibleSession fs root x && sessionYields fs (pjoin root x)) = some e := by
      refine find?_sorted_eq (sortStrings_sorted entries) (mem_sortStrings.mpr he)
        (by simp [helig, hyield]) ?_
      intro x hx hpx
      simp only [Bool.and_eq_true] at hpx
      exact hmin x (mem_sortStrings.mp hx) hpx.1 hpx.2
    rw [hfe]
    simp [firstConnectable, hcs, hfind]

theorem no_socket_owner_check_witness :
    (find_agent_socket fsOther "/tmp").1.isSome = true ∧
    (find_agent_socket fsOther "/tmp").1 = some (pjoin (pjoin "/tmp" "ssh-a") "agent.1") :=
  have h := no_socket_owner_check fsOther "/tmp" "ssh-a" "agent.1" ["ssh-a"] ["agent.1"]
    (by decide) (by decide) (by decide) (by decide) (by decide) (by decide)
    ⟨0o140600, 42⟩ (by decide) (by decide)
  ⟨h.1, h.2 (by decide) (by decide)⟩

/-! ### The relay loop -/

/-- Claim C2: for any sequence of nonempty client chunks of size at most
the fixed buffer size, with matching nonempty agent responses and all
writes succeeding, the relay delivers to the agent exactly the chunks read
from the client, in the same chunking and order, and delivers to the
client exactly the corresponding agent responses, in the same chunking and
order; nothing is dropped, duplicated or reordered. -/
theorem proxy_connection_fidelity (chunks resps : List (List Nat)) (csend asend : List Bool)
    (hc : ∀ b ∈ chunks, b ≠ [] ∧ b.length ≤ buf_size)
    (hr : ∀ r ∈ resps, r ≠ [] ∧ r.length ≤ buf_size)
    (hlen : chunks.length ≤ resps.length)
    (hcs : ∀ x ∈ csend, x = true) (has2 : ∀ x ∈ asend, x = true) :
    proxy_connection (chunks.map RecvRes.data) csend (resps.map RecvRes.data) asend =
      (Outcome.normal, chunks, resps.take chunks.length) := by
  induction chunks generalizing resps csend asend with
  | nil => simp [proxy_connection]
  | cons d ds ih =>
    cases resps with
    | nil => simp at hlen
    | cons r rs =>
      have hd : d ≠ [] := (hc d (List.mem_cons_self d ds)).1
      have hrne : r ≠ [] := (hr r (List.mem_cons_self r rs)).1
      have hasend : asend.head?.getD true = true := by
        cases asend with
        | nil => rfl
        | cons x xs => exact has2 x (List.mem_cons_self x xs)
      have hcsend : csend.head?.getD true = true := by
        cases csend with
        | nil => rfl
        | cons x xs => exact hcs x (List.mem_cons_self x xs)
      have hrec := ih rs csend.tail asend.tail
        (fun b hb => hc b (List.mem_cons_of_mem d hb))
        (fun x hx => hr x (List.mem_cons_of_mem r hx))
        (Nat.le_of_succ_le_succ (by simpa using hlen))
        (fun x hx => hcs x (List.mem_of_mem_tail hx))
        (fun x hx => has2 x (List.mem_of_mem_tail hx))
      simp [proxy_connection, hd, hrne, hasend, hcsend, hrec]

theorem proxy_connection_fidelity_witness :
    proxy_connection [RecvRes.data [1, 2], RecvRes.data [3]] [true]
        [RecvRes.data [7], RecvRes.data [8, 9]] [true, true] =
      (Outcome.normal, [[1, 2], [3]], [[7], [8, 9]]) :=
  proxy_connection_fidelity [[1, 2], [3]] [[7], [8, 9]] [true] [true, true]
    (by decide) (by decide) (by decide) (by decide) (by decide)

/-- Claim C6, counterexample to the claim as stated: with every write
succeeding, a failing read from the agent still makes the relay return a
forwarding error (`read from agent failed`), so errors are not produced
exactly by write failures. -/
theorem proxy_error_taxonomy_counterexample :
    proxy_connection [RecvRes.data [1]] [] [RecvRes.fail] [] =
      (Outcome.errReadAgent, [[1]], []) ∧
    Outcome.errReadAgent ≠ Outcome.normal ∧
    Outcome.errReadAgent ≠ Outcome.errWriteAgent ∧
    Outcome.errReadAgent ≠ Outcome.errWriteClient := by
  decide

/-- Claim C6, amended: the relay returns a forwarding error exactly when a
write to either side fails after the other side's read succeeded, or a
read from the agent fails, or a read from the client fails with an error
other than reset-by-peer: if no such failure occurs the outcome is normal,
each listed failure produces the corresponding error at the iteration
where it occurs, and a fully successful iteration leaves the outcome to
the rest of the loop. -/
theorem proxy_error_conditions (crecv arecv : List RecvRes) (csend asend : List Bool)
    (d r : List Nat) :
    ((∀ x ∈ csend, x = true) → (∀ x ∈ asend, x = true) →
      (∀ x ∈ crecv, x ≠ RecvRes.fail) → (∀ x ∈ arecv, ∃ b, x = RecvRes.data b) →
      (proxy_connection crecv csend arecv asend).1 = Outcome.normal) ∧
    (d ≠ [] → asend.headD true = false →
      proxy_connection (RecvRes.data d :: crecv) csend arecv asend =
        (Outcome.errWriteAgent, [], [])) ∧
    (d ≠ [] → asend.headD true = true →
      (arecv.headD (RecvRes.data []) = RecvRes.fail ∨
        arecv.headD (RecvRes.data []) = RecvRes.reset) →
      proxy_connection (RecvRes.data d :: crecv) csend arecv asend =
        (Outcome.errReadAgent, [d], [])) ∧
    (d ≠ [] → asend.headD true = true → arecv.headD (RecvRes.data []) = RecvRes.data r →
      r ≠ [] → csend.headD true = false →
      proxy_connection (RecvRes.data d :: crecv) csend arecv asend =
        (Outcome.errWriteClient, [d], [])) ∧
    (proxy_connection (RecvRes.fail :: crecv) csend arecv asend =
      (Outcome.errReadClient, [], [])) ∧
    (d ≠ [] → asend.headD true = true → arecv.headD (RecvRes.data []) = RecvRes.data r →
      r ≠ [] → csend.headD true = true →
      (proxy_connection (RecvRes.data d :: crecv) csend arecv asend).1 =
        (proxy_connection crecv csend.tail arecv.tail asend.tail).1) := by
  refine ⟨?_, ?_, ?_, ?_, ?_, ?_⟩
  · intro hcs has2 hcr har
    induction crecv generalizing csend asend arecv with
    | nil => simp [proxy_connection]
    | cons x xs ih =>
      cases x with
      | reset => simp [proxy_connection]
      | fail => exact absurd rfl (hcr RecvRes.fail (List.mem_cons_self _ xs))
      | data d0 =>
        by_cases hd0 : d0 = []
        · subst hd0
          simp [proxy_connection]
        · have hasend : asend.head?.getD true = true := by
            cases asend with
            | nil => rfl
            | cons y ys => exact has2 y (List.mem_cons_self y ys)
          have hcsend : csend.head?.getD true = true := by
            cases csend with
            | nil => rfl
            | cons y ys => exact hcs y (List.mem_cons_self y ys)
          have hrec := ih arecv.tail csend.tail asend.tail
            (fun y hy => hcs y (List.mem_of_mem_tail hy))
            (fun y hy => has2 y (List.mem_of_mem_tail hy))
            (fun y hy => hcr y (List.mem_cons_of_mem _ hy))
            (fun y hy => har y (List.mem_of_mem_tail hy))
          cases harecv : arecv.head?.getD (RecvRes.data []) with
          | reset =>
            exfalso
            cases arecv with
            | nil => cases harecv
            | cons z zs =>
              obtain ⟨b, hb⟩ := har z (List.mem_cons_self z zs)
              rw [hb] at harecv
              cases harecv
          | fail =>
            exfalso
            cases arecv with
            | nil => cases harecv
            | cons z zs =>
              obtain ⟨b, hb⟩ := har z (List.mem_cons_self z zs)
              rw [hb] at harecv
              cases harecv
          | data r0 =>
            by_cases hr0 : r0 = []
            · simp [proxy_connection, hd0, hasend, harecv, hr0]
            · simp [proxy_connection, hd0, hasend, harecv, hr0, hcsend, hrec]
  · intro hd hw
    rw [List.headD_eq_head?_getD] at hw
    simp [proxy_connection, hd, hw]
  · intro hd hw hread
    rw [List.headD_eq_head?_getD] at hw
    rw [List.headD_eq_head?_getD] at hread
    rcases hread with hread | hread <;> simp [proxy_connection, hd, hw, hread]
  · intro hd hw hread hr0 hcw
    rw [List.headD_eq_head?_getD] at hw
    rw [List.headD_eq_head?_getD] at hread
    rw [List.headD_eq_head?_getD] at hcw
    simp [proxy_connection, hd, hw, hread, hr0, hcw]
  · simp [proxy_connection]
  · intro hd hw hread hr0 hcw
    rw [List.headD_eq_head?_getD] at hw
    rw [List.headD_eq_head?_getD] at hread
    rw [List.headD_eq_head?_getD] at hcw
    simp [proxy_connection, hd, hw, hread, hr0, hcw]

theorem proxy_error_conditions_witness :
    (proxy_connection [RecvRes.data [5]] [true] [RecvRes.data [6]] [true]).1 =
      Outcome.normal ∧
    proxy_connection [RecvRes.data [5]] [] [RecvRes.data [6]] [false] =
      (Outcome.errWriteAgent, [], []) ∧
    proxy_connection [RecvRes.data [5]] [false] [RecvRes.data [6]] [true] =
      (Outcome.errWriteClient, [[5]], []) ∧
    proxy_connection [RecvRes.fail] [] [] [] = (Outcome.errReadClient, [], []) :=
  ⟨(proxy_error_conditions [RecvRes.data [5]] [RecvRes.data [6]] [true] [true] [] []).1
      (by decide) (by decide) (by decide)
      (by intro x hx; exact ⟨[6], by simpa using hx⟩),
   (proxy_error_conditions [] [RecvRes.data [6]] [] [false] [5] []).2.1
      (by decide) (by decide),
   (proxy_error_conditions [] [RecvRes.data [6]] [false] [true] [5] [6]).2.2.2.1
      (by decide) (by decide) (by decide) (by decide) (by decide),
   (proxy_error_conditions [] [] [] [] [] []).2.2.2.2.1⟩

/-- Claim C7: a zero-byte read from the client ends the loop normally with
no further write to either side; a zero-byte read from the agent (after
the chunk read from the client was already written to the agent) ends the
loop normally with no write to the client and no further write to the
agent. -/
theorem proxy_eof_no_writes (crecv arecv : List RecvRes) (csend asend : List Bool)
    (d : List Nat) :
    proxy_connection (RecvRes.data [] :: crecv) csend arecv asend =
      (Outcome.normal, [], []) ∧
    (d ≠ [] → asend.headD true = true →
      proxy_connection (RecvRes.data d :: crecv) csend (RecvRes.data [] :: arecv) asend =
        (Outcome.normal, [d], [])) := by
  constructor
  · simp [proxy_connection]
  · intro hd hok
    rw [List.headD_eq_head?_getD] at hok
    simp [proxy_connection, hd, hok]

theorem proxy_eof_no_writes_witness :
    proxy_connection [RecvRes.data [1], RecvRes.data [2]] []
        [RecvRes.data [], RecvRes.data [9]] [] = (Outcome.normal, [[1]], []) :=
  (proxy_eof_no_writes [RecvRes.data [2]] [RecvRes.data [9]] [] [] [1]).2
    (by decide) (by decide)

/-- Claim C8: a reset-by-peer error on the client read terminates the
relay normally, with the very same result as a client EOF (zero-byte
read), not with a forwarding error. -/
theorem proxy_reset_normal (crecv arecv : List RecvRes) (csend asend : List Bool) :
    proxy_connection (RecvRes.reset :: crecv) csend arecv asend =
      (Outcome.normal, [], []) ∧
    proxy_connection (RecvRes.reset :: crecv) csend arecv asend =
      proxy_connection (RecvRes.data [] :: crecv) csend arecv asend := by
  constructor <;> simp [proxy_connection]

/-- Claim C9: the relay itself closes nothing (it returns to its caller on
every exit path, and its result carries no close action); the
per-connection handler closes the client channel on every path, and closes
the agent channel too exactly when discovery opened one, with the agent
closed first; the close actions do not depend on how the relay ended. -/
theorem handle_connection_closes (fs : FS) (root : String)
    (crecv arecv crecv2 arecv2 : List RecvRes) (csend asend csend2 asend2 : List Bool) :
    (((find_agent_socket fs root).1 = none ∧
        handle_connection fs root crecv csend arecv asend = (none, [CloseEv.closeClient])) ∨
      (∃ a o, (find_agent_socket fs root).1 = some a ∧
        handle_connection fs root crecv csend arecv asend =
          (some o, [CloseEv.closeAgent, CloseEv.closeClient]))) ∧
    CloseEv.closeClient ∈ (handle_connection fs root crecv csend arecv asend).2 ∧
    (handle_connection fs root crecv csend arecv asend).2 =
      (handle_connection fs root crecv2 csend2 arecv2 asend2).2 := by
  cases hf : (find_agent_socket fs root).1 with
  | none =>
    refine ⟨Or.inl ⟨rfl, by simp [handle_connection, hf]⟩, ?_, ?_⟩ <;>
      simp [handle_connection, hf]
  | some a =>
    refine ⟨Or.inr ⟨a, (proxy_connection crecv csend arecv asend).1, rfl,
      by simp [handle_connection, hf]⟩, ?_, ?_⟩ <;> simp [handle_connection, hf]

end Switcher

